import Mathlib

set_option autoImplicit false

/-!
Verification of the batched-write coordinator of `typesaurus`
(`src/batch/index.ts`) against its natural-language specification.

The batch module is embedded shallowly: the mutable Firestore `WriteBatch`
handle that `batch()` creates and the closures mutate is modelled as an
explicit `FirestoreBatch` state (the list of staged transport operations plus
the number of `commit` calls issued on the handle), threaded through the
operations.  The value codec `unwrapData` lives in `src/data`, which is not
part of this snapshot; it is modelled from the spec and, in addition, every
batch operation takes the codec as an explicit function argument so that
dependence (or independence) on the codec is provable.
-/

namespace Typesaurus

/-- Embeds `Collection` from `src/collection`: a named group of documents,
identified by its `path` (the phantom model type is erased). -/
structure Collection where
  path : String


/-- Embeds `Ref` from `src/ref`: a (collection, id) pointer to one document. -/
structure Ref where
  collection : Collection
  id : String


/-- Embeds the `ref` constructor from `src/ref`. -/
def ref (c : Collection) (i : String) : Ref := ⟨c, i⟩

/-- Modelled from the spec: the application-level value domain handled by the
codec in `src/data` (not in this snapshot) — scalars, arrays, maps, nested
references, the sentinel commands, plus one `unsupported` case standing for a
value the codec rejects. -/
inductive Value where
  | str (s : String)
  | num (n : Int)
  | bool (b : Bool)
  | null
  | arr (elems : List Value)
  | obj (fields : List (String × Value))
  | del
  | serverTimestamp
  | increment (n : Int)
  | refTo (path : String) (id : String)
  | unsupported


/-- Embeds `Doc` from `src/doc`: a reference paired with materialized data. -/
structure Doc where
  ref : Ref
  data : Value


/-- Embeds the `doc` constructor from `src/doc`. -/
def doc (r : Ref) (d : Value) : Doc := ⟨r, d⟩

/-- Modelled from the spec: the transport's native wire-value domain —
scalars, arrays, maps, native command objects for the sentinels, and native
document pointers. -/
inductive Wire where
  | str (s : String)
  | num (n : Int)
  | bool (b : Bool)
  | null
  | arr (elems : List Wire)
  | obj (fields : List (String × Wire))
  | deleteSentinel
  | timestampSentinel
  | incrementSentinel (n : Int)
  | docPointer (path : String) (id : String)


mutual

/-- Modelled from the spec: `unwrapData` from `src/data` (not in this
snapshot).  Scalars pass through, arrays map element-wise, objects key-wise,
sentinels become native command objects, references become native pointers;
an unsupported value is a programmer error (a synchronous throw, modelled as
`Except.error`). -/
def unwrapData : Value → Except String Wire
  | .str s => .ok (.str s)
  | .num n => .ok (.num n)
  | .bool b => .ok (.bool b)
  | .null => .ok .null
  | .arr es => (unwrapList es).map .arr
  | .obj fs => (unwrapObj fs).map .obj
  | .del => .ok .deleteSentinel
  | .serverTimestamp => .ok .timestampSentinel
  | .increment n => .ok (.incrementSentinel n)
  | .refTo p i => .ok (.docPointer p i)
  | .unsupported => .error "unsupported value"

/-- Element-wise conversion of an array's elements. -/
def unwrapList : List Value → Except String (List Wire)
  | [] => .ok []
  | v :: vs => do
    let w ← unwrapData v
    let ws ← unwrapList vs
    .ok (w :: ws)

/-- Key-wise conversion of an object's fields. -/
def unwrapObj : List (String × Value) → Except String (List (String × Wire))
  | [] => .ok []
  | (k, v) :: fs => do
    let w ← unwrapData v
    let ws ← unwrapObj fs
    .ok ((k, w) :: ws)

end

/-- One operation staged on the transport `WriteBatch` handle:
`firestoreBatch.set(doc, data)` (Firestore's default when no options object is
forwarded is a full replace, `merge = false`), `firestoreBatch.update(doc,
data)` and `firestoreBatch.delete(doc)`. -/
inductive WireOp where
  | set (path : String) (id : String) (data : Wire) (merge : Bool)
  | update (path : String) (id : String) (data : Wire)
  | delete (path : String) (id : String)


/-- State of the transport `WriteBatch` handle owned by one `batch()` call:
the staged operations in order, and how many times `commit` has been invoked
on the handle. -/
structure FirestoreBatch where
  ops : List WireOp
  commitCalls : Nat


/-- Embeds `firestore().batch()` on line 29 of `src/batch/index.ts`: the fresh
transport batch handle created when `batch()` is called. -/
def batchInit : FirestoreBatch := ⟨[], 0⟩

/-- The overloaded target argument of `set` / `update` / `clear`: a
`Ref` or a `(Collection, id)` pair, dispatched in the source by testing
`collectionOrRef.__type__ === 'collection'`. -/
inductive Target where
  | byRef (r : Ref)
  | byId (c : Collection) (i : String)


/-- Embeds the dispatch at the top of `set` / `update` / `clear`
(lines 76–85, 162–171, 225–232): the collection branch reads the explicit
`(collection, id)` arguments; the ref branch reads `ref.collection` and
`ref.id`. -/
def resolveTarget : Target → Collection × String
  | .byRef r => (r.collection, r.id)
  | .byId c i => (c, i)

/-- Options object that the repository's own test passes to the batch `set`
(`{ merge: boolean }`). -/
structure SetOptions where
  merge : Bool


/-- Embeds the `key` of a `Field` from `src/field`: a single key or an ordered
sequence of keys (the source tests `Array.isArray(key)`). -/
inductive FieldKey where
  | single (k : String)
  | path (ks : List String)


/-- Embeds `Array.isArray(key) ? key.join('.') : key` on line 179: a key
sequence is joined with dots, a single key is used literally. -/
def fieldKeyToDotted : FieldKey → String
  | .single k => k
  | .path ks => String.intercalate "." ks

/-- Embeds a `Field` entry from `src/field`: the `{ key, value }` pair the
reduce on lines 177–183 destructures. -/
structure Field where
  key : FieldKey
  value : Value


/-- JavaScript object property assignment `acc[key] = value`: an existing key
keeps its position and gets the new value, a new key is appended. -/
def objInsert (acc : List (String × Value)) (k : String) (v : Value) :
    List (String × Value) :=
  if acc.any (fun kv => kv.1 == k) then
    acc.map (fun kv => if kv.1 == k then (k, v) else kv)
  else
    acc ++ [(k, v)]

/-- Embeds the `data.reduce(...)` on lines 176–183: fold the entries in order
into an initially empty object, assigning each entry's value at its dotted
key. -/
def normalizeFields (fs : List Field) : List (String × Value) :=
  fs.foldl (fun acc f => objInsert acc (fieldKeyToDotted f.key) f.value) []

/-- The two runtime shapes of `update`'s data argument: `Field<Model>[]`
(when `Array.isArray(data)` holds) or a plain `ModelUpdate<Model>` object. -/
inductive UpdateData where
  | fields (fs : List Field)
  | model (m : Value)


/-- Embeds `Array.isArray(data) ? data.reduce(...) : data` on lines 176–184:
the value handed to `unwrapData` by `update`. -/
def updatePayload : UpdateData → Value
  | .fields fs => .obj (normalizeFields fs)
  | .model m => m

/-- Embeds `set` from `src/batch/index.ts` lines 67–95.  The implementation's
parameter list is `(collectionOrRef, idOrData, maybeData)`; when the caller
passes an options object (as the repository's test does) it lands past the
data argument and the body never reads it, so it is kept here as an explicit
`opts` argument that the body ignores.  The body resolves the target,
converts the data (`unwrapData(data)` throws before `firestoreBatch.set` runs,
leaving the batch untouched), stages `firestoreBatch.set(firestoreDoc, ...)`
with no options object (a full replace), and returns `doc(ref(collection,
id), data)` built from the input data. -/
def set (uw : Value → Except String Wire) (target : Target) (d : Value)
    (opts : Option SetOptions) (b : FirestoreBatch) :
    FirestoreBatch × Except String Doc :=
  let c := (resolveTarget target).1
  let i := (resolveTarget target).2
  match uw d with
  | .error e => (b, .error e)
  | .ok wire =>
    ({ b with ops := b.ops ++ [WireOp.set c.path i wire false] },
     .ok (doc (ref c i) d))

/-- Embeds `update` from `src/batch/index.ts` lines 153–188: resolve the
target, normalize the data (list form through the reduce, object form
as-is), convert it (`unwrapData(updateData)` throws before
`firestoreBatch.update` runs, leaving the batch untouched), and stage
`firestoreBatch.update(firebaseDoc, ...)`.  Returns void. -/
def update (uw : Value → Except String Wire) (target : Target)
    (d : UpdateData) (b : FirestoreBatch) :
    FirestoreBatch × Except String Unit :=
  let c := (resolveTarget target).1
  let i := (resolveTarget target).2
  match uw (updatePayload d) with
  | .error e => (b, .error e)
  | .ok wire =>
    ({ b with ops := b.ops ++ [WireOp.update c.path i wire] }, .ok ())

/-- Embeds `clear` from `src/batch/index.ts` lines 218–240: resolve the
target and stage `firestoreBatch.delete(firebaseDoc)`.  The module's codec is
in scope (`uw`) but the body never calls it, and nothing can fail. -/
def clear (uw : Value → Except String Wire) (target : Target)
    (b : FirestoreBatch) : FirestoreBatch :=
  let c := (resolveTarget target).1
  let i := (resolveTarget target).2
  { b with ops := b.ops ++ [WireOp.delete c.path i] }

/-- Embeds `commit` from `src/batch/index.ts` lines 247–249:
`await firestoreBatch.commit()` — one commit call on the transport handle,
whose outcome (`tc` applied to all staged operations as a single unit) is
returned to the caller verbatim. -/
def commit (tc : List WireOp → Except String Unit) (b : FirestoreBatch) :
    FirestoreBatch × Except String Unit :=
  ({ b with commitCalls := b.commitCalls + 1 }, tc b.ops)

/-- One staging call a caller can make on the batch API returned by
`batch()`. -/
inductive BatchCall where
  | set (t : Target) (d : Value) (opts : Option SetOptions)
  | update (t : Target) (d : UpdateData)
  | clear (t : Target)

/-- Effect of one staging call on the transport batch handle (a synchronous
throw leaves the handle as it was; the caller may catch it and continue). -/
def runCall (uw : Value → Except String Wire) (b : FirestoreBatch) :
    BatchCall → FirestoreBatch
  | .set t d opts => (set uw t d opts b).1
  | .update t d => (update uw t d b).1
  | .clear t => clear uw t b

/-- Effect of a sequence of staging calls, in order. -/
def runCalls (uw : Value → Except String Wire) (cs : List BatchCall)
    (b : FirestoreBatch) : FirestoreBatch :=
  cs.foldl (runCall uw) b


/-! Helper lemmas about the field-path normalization and the trace
semantics, shared by the claim theorems below. -/

theorem lookup_map_replace (acc : List (String × Value)) (q k : String) (v : Value) :
    List.lookup q (acc.map (fun kv => if kv.1 == k then (k, v) else kv)) =
      if q = k then (if acc.any (fun kv => kv.1 == k) then some v else none)
      else List.lookup q acc := by
  induction acc with
  | nil => by_cases hq : q = k <;> simp [hq]
  | cons kv rest ih =>
    obtain ⟨k1, v1⟩ := kv
    by_cases h1 : k1 = k
    · subst h1
      by_cases hq : q = k1
      · subst hq
        simp [List.lookup_cons, ih]
      · simp [List.lookup_cons, beq_eq_false_iff_ne.mpr hq, hq] at ih ⊢
        exact ih
    · by_cases hq : q = k
      · subst hq
        have hb : (k1 == q) = false := beq_eq_false_iff_ne.mpr h1
        have hb2 : (q == k1) = false := beq_eq_false_iff_ne.mpr (Ne.symm h1)
        simp only [List.map_cons, List.any_cons, List.lookup_cons, hb, hb2,
          Bool.false_or, Bool.false_eq_true, if_false, if_true, if_pos rfl] at ih ⊢
        exact ih
      · by_cases hq1 : q = k1
        · subst hq1
          have hb : (q == k) = false := beq_eq_false_iff_ne.mpr h1
          simp only [List.map_cons, List.lookup_cons, hb, Bool.false_eq_true,
            if_false, beq_self_eq_true]
          simp [hq]
        · have hb : (k1 == k) = false := beq_eq_false_iff_ne.mpr h1
          have hb2 : (q == k1) = false := beq_eq_false_iff_ne.mpr hq1
          simp only [List.map_cons, List.any_cons, List.lookup_cons, hb, hb2,
            Bool.false_eq_true, if_false, hq] at ih ⊢
          exact ih

theorem lookup_append_pairs (l1 l2 : List (String × Value)) (q : String) :
    List.lookup q (l1 ++ l2) = (List.lookup q l1).or (List.lookup q l2) := by
  induction l1 with
  | nil => simp
  | cons kv rest ih =>
    obtain ⟨k1, v1⟩ := kv
    by_cases hq : q = k1
    · subst hq; simp [List.lookup_cons]
    · simp [List.lookup_cons, beq_eq_false_iff_ne.mpr hq, ih]

theorem lookup_eq_none_of_any_false (acc : List (String × Value)) (q : String)
    (h : acc.any (fun kv => kv.1 == q) = false) : List.lookup q acc = none := by
  induction acc with
  | nil => rfl
  | cons kv rest ih =>
    obtain ⟨k1, v1⟩ := kv
    simp only [List.any_cons, Bool.or_eq_false_iff] at h
    have hk : ¬q = k1 := fun hh => by simp [hh] at h
    simp [List.lookup_cons, beq_eq_false_iff_ne.mpr hk, ih h.2]

theorem lookup_objInsert (acc : List (String × Value)) (q k : String) (v : Value) :
    List.lookup q (objInsert acc k v) =
      if q = k then some v else List.lookup q acc := by
  unfold objInsert
  by_cases hany : acc.any (fun kv => kv.1 == k)
  · rw [if_pos hany, lookup_map_replace]
    by_cases hq : q = k <;> simp [hq, hany]
  · rw [if_neg hany, lookup_append_pairs]
    by_cases hq : q = k
    · subst hq
      rw [lookup_eq_none_of_any_false acc _ (Bool.eq_false_iff.mpr hany)]
      simp [List.lookup_cons]
    · simp [List.lookup_cons, beq_eq_false_iff_ne.mpr hq, hq]

theorem normalizeFields_append (fs : List Field) (f : Field) :
    normalizeFields (fs ++ [f]) =
      objInsert (normalizeFields fs) (fieldKeyToDotted f.key) f.value := by
  simp [normalizeFields, List.foldl_append]

theorem runCall_commitCalls (uw : Value → Except String Wire)
    (b : FirestoreBatch) (cl : BatchCall) :
    (runCall uw b cl).commitCalls = b.commitCalls := by
  cases cl with
  | set t d opts =>
    simp only [runCall]
    unfold set
    cases uw d <;> rfl
  | update t d =>
    simp only [runCall]
    unfold update
    cases uw (updatePayload d) <;> rfl
  | clear t => rfl

theorem runCalls_commitCalls (uw : Value → Except String Wire)
    (cs : List BatchCall) (b : FirestoreBatch) :
    (runCalls uw cs b).commitCalls = b.commitCalls := by
  induction cs generalizing b with
  | nil => rfl
  | cons c rest ih =>
    show (runCalls uw rest (runCall uw b c)).commitCalls = _
    rw [ih, runCall_commitCalls]

/-! Claim theorems. -/

/-- C1: evaluated at the repository's own test input (`allows set and
overwrite` in `src/batch/test.ts`), a batch `set` called with `{merge: true}`
stages a full-replace operation (`merge = false`) on the transport batch —
identical to the operation staged with no options — because the
implementation's parameter list never reads an options argument and
`firestoreBatch.set` is called without one.  This contradicts the claim (and
the test's own assertions) that `{merge: true}` stages a merge. -/
theorem set_merge_option_ignored :
    (set unwrapData (.byRef (ref ⟨"users"⟩ "tati"))
        (.obj [("name", .str "Tati Shepeleva"), ("foo", .bool false)])
        (some ⟨true⟩) batchInit).1.ops =
      [WireOp.set "users" "tati"
          (.obj [("name", .str "Tati Shepeleva"), ("foo", .bool false)]) false] ∧
    set unwrapData (.byRef (ref ⟨"users"⟩ "tati"))
        (.obj [("name", .str "Tati Shepeleva"), ("foo", .bool false)])
        (some ⟨true⟩) batchInit =
      set unwrapData (.byRef (ref ⟨"users"⟩ "tati"))
        (.obj [("name", .str "Tati Shepeleva"), ("foo", .bool false)])
        none batchInit :=
  ⟨rfl, rfl⟩

/-- C2 counterexample: the claim that a staging call after `commit` fails
fast is false at a concrete input — after `commit` has been invoked on a
fresh batch (one transport commit call performed), `clear` still succeeds and
silently stages a deletion onto the already-committed transport batch. -/
theorem post_commit_staging_accepted :
    ((commit (fun _ => .ok ()) batchInit).1.commitCalls = 1) ∧
    clear unwrapData (.byId ⟨"users"⟩ "sasha")
        (commit (fun _ => .ok ()) batchInit).1 =
      { ops := [WireOp.delete "users" "sasha"], commitCalls := 1 } :=
  ⟨rfl, rfl⟩

/-- C2 amended: a batch instance keeps no lifecycle state — the behavior of
every staging call is independent of how many commit calls have been issued
on the handle, so a staging call after `commit` silently stages onto the
already-committed transport batch (in particular `clear` always appends its
deletion), rather than failing fast. -/
theorem staging_independent_of_commit_state :
    (∀ (uw : Value → Except String Wire) (cl : BatchCall)
        (b : FirestoreBatch) (n : Nat),
      runCall uw { b with commitCalls := n } cl =
        { runCall uw b cl with commitCalls := n }) ∧
    (∀ (uw : Value → Except String Wire) (t : Target) (b : FirestoreBatch),
      clear uw t b =
        { b with ops := b.ops ++
            [WireOp.delete (resolveTarget t).1.path (resolveTarget t).2] }) := by
  constructor
  · intro uw cl b n
    cases cl with
    | set t d opts =>
      simp only [runCall]
      unfold set
      cases uw d <;> rfl
    | update t d =>
      simp only [runCall]
      unfold update
      cases uw (updatePayload d) <;> rfl
    | clear t => rfl
  · intro uw t b
    rfl

/-- C3: for every collection, id and payload, the `Reference` call form and
the `(Collection, id)` call form resolve to the same reference and produce
identical results — the same staged transport operation and resulting batch
state, and for `set` the same returned `Doc` — for each of `set`, `update`
and `clear`. -/
theorem overload_forms_equivalent (uw : Value → Except String Wire)
    (c : Collection) (i : String) (d : Value) (opts : Option SetOptions)
    (du : UpdateData) (b : FirestoreBatch) :
    set uw (.byRef (ref c i)) d opts b = set uw (.byId c i) d opts b ∧
    update uw (.byRef (ref c i)) du b = update uw (.byId c i) du b ∧
    clear uw (.byRef (ref c i)) b = clear uw (.byId c i) b :=
  ⟨rfl, rfl, rfl⟩

/-- C4: list-form update normalization iterates the entries in order and
inserts each at its dotted-path key, overwriting any prior entry, so the
value the output mapping associates with any concrete dotted path `q` is the
value of the last entry whose computed key is `q`; and a single key is used
literally, so a single key containing a dot yields the same output key as the
corresponding key sequence. -/
theorem update_list_normalization_last_wins :
    (∀ (fs : List Field) (q : String),
      List.lookup q (normalizeFields fs) =
        (List.getLast? (fs.filter (fun f => fieldKeyToDotted f.key == q))).map
          Field.value) ∧
    (∀ a b : String,
      fieldKeyToDotted (.single (a ++ "." ++ b)) =
        fieldKeyToDotted (.path [a, b])) := by
  constructor
  · intro fs q
    induction fs using List.reverseRecOn with
    | nil => rfl
    | append_singleton fs f ih =>
      rw [normalizeFields_append, lookup_objInsert]
      by_cases h : q = fieldKeyToDotted f.key
      · simp [List.filter_append, h, List.getLast?_concat]
      · simp [List.filter_append, beq_eq_false_iff_ne.mpr (Ne.symm h), h, ih]
  · intro a b
    rfl

/-- C5: for every reference target and flat single-key value, the object-form
update and the equivalent one-entry list-form update stage the same update
payload on the transport batch and produce the same batch state. -/
theorem update_object_list_form_equivalent (uw : Value → Except String Wire)
    (t : Target) (b : FirestoreBatch) (k : String) (v : Value) :
    update uw t (.fields [⟨.single k, v⟩]) b =
      update uw t (.model (.obj [(k, v)])) b :=
  rfl

/-- C6: an empty update — empty entry list or empty object — still stages an
update call with an empty payload on the transport batch instead of being
silently skipped. -/
theorem empty_update_still_staged (t : Target) (b : FirestoreBatch) :
    update unwrapData t (.fields []) b =
      ({ b with ops := b.ops ++
          [WireOp.update (resolveTarget t).1.path (resolveTarget t).2
            (.obj [])] },
        .ok ()) ∧
    update unwrapData t (.model (.obj [])) b =
      ({ b with ops := b.ops ++
          [WireOp.update (resolveTarget t).1.path (resolveTarget t).2
            (.obj [])] },
        .ok ()) :=
  ⟨rfl, rfl⟩

/-- C7: whenever `set` returns a `Doc`, that document's `ref` is the resolved
reference of the target and its `data` is the exact input data value, echoed
without a round trip through the codec or the transport. -/
theorem set_returns_input_echo (uw : Value → Except String Wire) (t : Target)
    (d : Value) (opts : Option SetOptions) (b bres : FirestoreBatch)
    (out : Doc) (h : set uw t d opts b = (bres, Except.ok out)) :
    out.ref = ref (resolveTarget t).1 (resolveTarget t).2 ∧ out.data = d := by
  unfold set at h
  cases huw : uw d with
  | error e => rw [huw] at h; simp at h
  | ok w =>
    rw [huw] at h
    have h2 := congrArg Prod.snd h
    simp at h2
    subst h2
    exact ⟨rfl, rfl⟩

/-- C7 witness: the echo theorem applied at a concrete `set` call. -/
theorem set_returns_input_echo_witness :
    (doc (ref ⟨"users"⟩ "sasha") (.obj [("name", .str "Sasha")])).ref =
        ref (resolveTarget (.byId ⟨"users"⟩ "sasha")).1
          (resolveTarget (.byId ⟨"users"⟩ "sasha")).2 ∧
    (doc (ref ⟨"users"⟩ "sasha") (.obj [("name", .str "Sasha")])).data =
      Value.obj [("name", .str "Sasha")] :=
  set_returns_input_echo unwrapData (.byId ⟨"users"⟩ "sasha")
    (.obj [("name", .str "Sasha")]) none batchInit
    ⟨[WireOp.set "users" "sasha" (.obj [("name", .str "Sasha")]) false], 0⟩
    (doc (ref ⟨"users"⟩ "sasha") (.obj [("name", .str "Sasha")])) rfl

/-- C8: if the codec rejects the data of a `set` or of an `update` (either
form), the error is raised synchronously by that call and the batch state is
returned unchanged — nothing is staged on the transport batch by the failed
call. -/
theorem staging_error_aborts_operation (uw : Value → Except String Wire)
    (t : Target) (d : Value) (opts : Option SetOptions) (du : UpdateData)
    (b : FirestoreBatch) (e eu : String) (hset : uw d = .error e)
    (hupd : uw (updatePayload du) = .error eu) :
    set uw t d opts b = (b, .error e) ∧ update uw t du b = (b, .error eu) := by
  constructor
  · unfold set; rw [hset]
  · unfold update; rw [hupd]

/-- C8 witness: the abort theorem applied at a concrete unsupported value. -/
theorem staging_error_aborts_operation_witness :
    set unwrapData (.byId ⟨"users"⟩ "sasha") .unsupported none batchInit =
      (batchInit, .error "unsupported value") ∧
    update unwrapData (.byId ⟨"users"⟩ "sasha") (.model .unsupported)
        batchInit =
      (batchInit, .error "unsupported value") :=
  staging_error_aborts_operation unwrapData (.byId ⟨"users"⟩ "sasha")
    .unsupported none (.model .unsupported) batchInit
    "unsupported value" "unsupported value" rfl rfl

/-- C9: after any sequence of staging calls on a fresh batch (during which no
transport commit happens), `commit` issues exactly one commit call on the
handle created by `batch()` — the commit-call count goes from 0 to 1 — passing
all staged operations as one unit, and returns the transport's outcome
verbatim (in particular a transport rejection is surfaced unchanged, with no
retry). -/
theorem commit_flushes_staged_ops_once (uw : Value → Except String Wire)
    (tc : List WireOp → Except String Unit) (cs : List BatchCall) :
    commit tc (runCalls uw cs batchInit) =
      ({ runCalls uw cs batchInit with commitCalls := 1 },
        tc (runCalls uw cs batchInit).ops) := by
  unfold commit
  rw [runCalls_commitCalls]
  rfl

/-- C10: `clear` never invokes the value codec — its result is the same for
every codec — and it only resolves the target and appends a deletion of the
resolved document to the transport batch; being total, it can never raise an
encoding error, and it takes no data to convert or inspect. -/
theorem clear_never_invokes_codec (uw1 uw2 : Value → Except String Wire)
    (t : Target) (b : FirestoreBatch) :
    clear uw1 t b = clear uw2 t b ∧
    clear uw1 t b =
      { b with ops := b.ops ++
          [WireOp.delete (resolveTarget t).1.path (resolveTarget t).2] } :=
  ⟨rfl, rfl⟩

end Typesaurus
